import Mathlib

/-!
Shallow embedding of the sensor-coverage interval engine of `src/bin/d15.rs`
(Advent-of-Code 2022 day 15 solution), together with proofs of the
specification claims about it.

Modelling conventions:
* Rust `i32` values are modelled as `Int`; `u32` values as `Nat`.  All
  arithmetic the program performs on in-range inputs coincides with the
  unbounded arithmetic used here (the program works with small coordinates
  and would panic on overflow rather than wrap, in debug builds).
* `Coord(i32, i32)` is modelled as `Int × Int`, with `.1` the x and `.2`
  the y coordinate, matching the tuple-struct field order.
* `RangeInclusive<i32>` inside `SensorRange` is modelled as a structure
  with fields `first`/`last` (the accessor names used by the source).
* `BTreeSet<SensorRange>` is modelled as a strictly sorted list under the
  source's `Ord` instance, built by ordered insertion; iteration order of
  the set is its sorted order.
* `HashSet<Coord>` (the beacon set) is modelled as a `Finset (Int × Int)`;
  the only fold over it is order-independent counting.
-/

/-- `Coord::distance_to`: Manhattan distance, `abs_diff` sums as `u32`. -/
def distance_to (a b : Int × Int) : Nat :=
  (a.1 - b.1).natAbs + (a.2 - b.2).natAbs

/-- struct `Sensor { sensor: Coord, closest_beacon: Coord }`. -/
structure Sensor where
  sensor : Int × Int
  closest_beacon : Int × Int
deriving DecidableEq, Repr

/-- `Sensor::distance`: reach radius of a sensor. -/
def Sensor.distance (s : Sensor) : Nat :=
  distance_to s.sensor s.closest_beacon

/-- struct `SensorRange(RangeInclusive<i32>)`, with `first`/`last` accessors. -/
structure SensorRange where
  first : Int
  last : Int
deriving DecidableEq, Repr

/-- `Sensor::range`: the covered column interval on `row`, `None` when the
row is out of reach or the trimmed interval is empty.  The two trimming
branches are transcribed literally from the source: the first compares the
beacon's x-coordinate (`closest_beacon.0`) with `first`, the second
compares the beacon's y-coordinate (`closest_beacon.1`) with `last`. -/
def Sensor.range (s : Sensor) (row : Int) : Option SensorRange :=
  let min_distance : Nat := (row - s.sensor.2).natAbs
  let max_distance : Nat := s.distance
  if min_distance > max_distance then
    none
  else
    let offset : Int := ((max_distance - min_distance : Nat) : Int)
    let first0 := s.sensor.1 - offset
    let last0 := s.sensor.1 + offset
    let first1 := if s.closest_beacon.2 = row ∧ s.closest_beacon.1 = first0
      then first0 + 1 else first0
    let last1 := if s.closest_beacon.2 = row ∧ s.closest_beacon.2 = last0
      then last0 - 1 else last0
    if first1 > last1 then none else some ⟨first1, last1⟩

/-- `i32::cmp`, the standard total order on machine integers. -/
def intCmp (a b : Int) : Ordering :=
  if a < b then .lt else if b < a then .gt else .eq

/-- `Ord for SensorRange`: start ascending, end descending on ties
(`self.0.end().cmp(other.0.end()).reverse()`). -/
def SensorRange.cmp (a b : SensorRange) : Ordering :=
  match intCmp a.first b.first with
  | .eq => (intCmp a.last b.last).swap
  | definitive => definitive

/-- `SensorRange::join`: merge two ranges when they overlap or touch
(`last + 1 < rhs.first` keeps them apart), otherwise return both. -/
def SensorRange.join (a b : SensorRange) : SensorRange × Option SensorRange :=
  if a.last + 1 < b.first then (a, some b)
  else (⟨a.first, max a.last b.last⟩, none)

/-- Loop body of `SensorRange::join_all`: `acc` is the pending range
(`prev` in the source); each incoming range is either emitted after `acc`
or merged into it; the pending range is emitted at the end of input. -/
def SensorRange.joinAllGo (acc : SensorRange) : List SensorRange → List SensorRange
  | [] => [acc]
  | b :: rest =>
    if acc.last + 1 < b.first then acc :: joinAllGo b rest
    else joinAllGo ⟨acc.first, max acc.last b.last⟩ rest

/-- `SensorRange::join_all`: fold a sorted collection of ranges into
maximal merged ranges. -/
def SensorRange.join_all : List SensorRange → List SensorRange
  | [] => []
  | a :: rest => SensorRange.joinAllGo a rest

/-- `SensorRange::len`: number of integer positions covered. -/
def SensorRange.len (r : SensorRange) : Nat :=
  (r.last + 1 - r.first).toNat

/-- `SensorRange::clamp`: intersect with `[a, b]`, without re-checking the
`first <= last` invariant. -/
def SensorRange.clamp (r : SensorRange) (a b : Int) : SensorRange :=
  ⟨max r.first a, min r.last b⟩

/-- `RangeInclusive::contains` on the wrapped range. -/
def SensorRange.memX (r : SensorRange) (x : Int) : Prop :=
  r.first ≤ x ∧ x ≤ r.last

instance (r : SensorRange) (x : Int) : Decidable (r.memX x) :=
  inferInstanceAs (Decidable (_ ∧ _))

/-- `BTreeSet::insert` on the sorted-list model: ordered insertion that
drops an element already present (comparing with `SensorRange.cmp`). -/
def btreeInsert (r : SensorRange) : List SensorRange → List SensorRange
  | [] => [r]
  | a :: rest =>
    match r.cmp a with
    | .lt => r :: a :: rest
    | .eq => a :: rest
    | .gt => a :: btreeInsert r rest

/-- Building a `BTreeSet<SensorRange>` from a list of insertions. -/
def btreeOf (l : List SensorRange) : List SensorRange :=
  l.foldl (fun acc r => btreeInsert r acc) []

/-- The per-row ranges collected in `answer`: `sensor.range(y)` over all
sensors, dropping `None`s (in source order, before the set sorts them). -/
def rowRanges (sensors : List Sensor) (y : Int) : List SensorRange :=
  sensors.filterMap (fun s => s.range y)

/-- The sorted `BTreeSet` of per-row ranges, in iteration order. -/
def sortedRowRanges (sensors : List Sensor) (y : Int) : List SensorRange :=
  btreeOf (rowRanges sensors y)

/-- The merged (joined) ranges of one row, as `answer` computes them. -/
def mergedRows (sensors : List Sensor) (y : Int) : List SensorRange :=
  SensorRange.join_all (sortedRowRanges sensors y)

/-- The merged ranges of one row clamped to `[0, limit]`, as in the part-B
row scan of `answer`. -/
def clampedRows (sensors : List Sensor) (limit y : Int) : List SensorRange :=
  (mergedRows sensors y).map (fun r => r.clamp 0 limit)

/-- One iteration of the part-B `find_map` closure: a row qualifies when
more than one clamped merged range remains. -/
def rowScan (sensors : List Sensor) (limit y : Int) :
    Option (Int × List SensorRange) :=
  let ranges := clampedRows sensors limit y
  if ranges.length > 1 then some (y, ranges) else none

/-- The part-B bounded search `(0..=limit).find_map(...)`: first qualifying
row in `0..=limit` together with its clamped ranges. -/
def findGap (sensors : List Sensor) (limit : Int) :
    Option (Int × List SensorRange) :=
  (List.range (limit.toNat + 1)).findSome? (fun n => rowScan sensors limit (n : Int))

/-- The part-B answer value: `frequency[i] = x * 4000000 + y` with
`x = ranges[0].last() + 1` when a row was found, and the initial value `0`
otherwise.  (`findGap` only ever returns lists of length > 1, so the
empty-list fallback is unreachable.) -/
def frequency (sensors : List Sensor) (limit : Int) : Int :=
  match findGap sensors limit with
  | some (y, r :: _) => (r.last + 1) * 4000000 + y
  | _ => 0

/-- The deduplicated beacon set built by `answer`
(`beacons.insert(sensor.closest_beacon)` over all sensors). -/
def beaconSet (sensors : List Sensor) : Finset (Int × Int) :=
  (sensors.map (fun s => s.closest_beacon)).toFinset

/-- Inner loop of `count_slots`: `range.len()` minus one for every distinct
beacon on `row` inside this range. -/
def slotCount (bs : Finset (Int × Int)) (row : Int) (r : SensorRange) : Nat :=
  r.len - (bs.filter (fun b => b.2 = row ∧ r.memX b.1)).card

/-- `count_slots`: the part-A coverage count for one row. -/
def count_slots (sensors : List Sensor) (row : Int) : Nat :=
  ((mergedRows sensors row).map (slotCount (beaconSet sensors) row)).sum

/-- A column is covered by some range of a list. -/
def coveredBy (l : List SensorRange) (x : Int) : Prop :=
  ∃ r ∈ l, r.memX x

instance (l : List SensorRange) (x : Int) : Decidable (coveredBy l x) :=
  inferInstanceAs (Decidable (∃ r ∈ l, _))

/-- Modelled from the spec: the canonical walkthrough example fixture
(the sample input file is not part of `src/`).  The spec pins the sensor
`(8,7)` with beacon `(2,10)` and the expected end-to-end values; the full
canonical example consists of these fourteen sensor records. -/
def sampleSensors : List Sensor := [
  ⟨(2, 18), (-2, 15)⟩, ⟨(9, 16), (10, 16)⟩, ⟨(13, 2), (15, 3)⟩,
  ⟨(12, 14), (10, 16)⟩, ⟨(10, 20), (10, 16)⟩, ⟨(14, 17), (10, 16)⟩,
  ⟨(8, 7), (2, 10)⟩, ⟨(2, 0), (2, 10)⟩, ⟨(0, 11), (2, 10)⟩,
  ⟨(20, 14), (25, 17)⟩, ⟨(17, 20), (21, 22)⟩, ⟨(16, 7), (15, 3)⟩,
  ⟨(14, 3), (15, 3)⟩, ⟨(20, 1), (15, 3)⟩]

/-- Two sensors whose row-0 coverage leaves a three-column hole inside the
bounded region: sensor (1,0) with beacon (1,2) covers columns -1..3, and
sensor (9,0) with beacon (9,2) covers columns 7..11. -/
def gapPairSensors : List Sensor := [⟨(1, 0), (1, 2)⟩, ⟨(9, 0), (9, 2)⟩]

/-- A single sensor whose coverage never splits in two inside `[0, 20]`:
no row of the bounded search qualifies, so the part-B search finds nothing. -/
def noGapSensors : List Sensor := [⟨(0, 0), (0, 1)⟩]

/-! ### Comparator lemmas -/

theorem intCmp_eq_lt {a b : Int} : intCmp a b = .lt ↔ a < b := by
  unfold intCmp
  by_cases h1 : a < b
  · simp [h1]
  · by_cases h2 : b < a <;> simp [h1, h2]

theorem intCmp_eq_gt {a b : Int} : intCmp a b = .gt ↔ b < a := by
  unfold intCmp
  by_cases h1 : a < b
  · simp [h1]; omega
  · by_cases h2 : b < a <;> simp [h1, h2]

theorem intCmp_eq_eq {a b : Int} : intCmp a b = .eq ↔ a = b := by
  unfold intCmp
  by_cases h1 : a < b
  · simp [h1]; omega
  · by_cases h2 : b < a <;> simp [h1, h2] <;> omega

theorem SensorRange.cmp_lt_iff (a b : SensorRange) :
    a.cmp b = .lt ↔ a.first < b.first ∨ (a.first = b.first ∧ b.last < a.last) := by
  unfold SensorRange.cmp
  rcases h : intCmp a.first b.first with _ | _ | _
  · rw [intCmp_eq_lt] at h
    simp [h]
  · rw [intCmp_eq_eq] at h
    rcases h2 : intCmp a.last b.last with _ | _ | _
    · rw [intCmp_eq_lt] at h2
      simp only [Ordering.swap]
      simp
      omega
    · rw [intCmp_eq_eq] at h2
      simp only [Ordering.swap]
      simp
      omega
    · rw [intCmp_eq_gt] at h2
      simp only [Ordering.swap]
      simp
      omega
  · rw [intCmp_eq_gt] at h
    simp
    omega

theorem SensorRange.cmp_gt_char (a b : SensorRange) :
    a.cmp b = .gt ↔ b.first < a.first ∨ (b.first = a.first ∧ a.last < b.last) := by
  unfold SensorRange.cmp
  rcases h : intCmp a.first b.first with _ | _ | _
  · rw [intCmp_eq_lt] at h
    simp
    omega
  · rw [intCmp_eq_eq] at h
    rcases h2 : intCmp a.last b.last with _ | _ | _
    · rw [intCmp_eq_lt] at h2
      simp only [Ordering.swap]
      simp
      omega
    · rw [intCmp_eq_eq] at h2
      simp only [Ordering.swap]
      simp
      omega
    · rw [intCmp_eq_gt] at h2
      simp only [Ordering.swap]
      simp
      omega
  · rw [intCmp_eq_gt] at h
    simp
    omega

theorem SensorRange.cmp_eq_iff (a b : SensorRange) : a.cmp b = .eq ↔ a = b := by
  obtain ⟨af, al⟩ := a
  obtain ⟨bf, bl⟩ := b
  unfold SensorRange.cmp
  dsimp only
  rcases h : intCmp af bf with _ | _ | _
  · rw [intCmp_eq_lt] at h
    simp [SensorRange.mk.injEq]
    omega
  · rw [intCmp_eq_eq] at h
    rcases h2 : intCmp al bl with _ | _ | _
    · rw [intCmp_eq_lt] at h2
      simp only [Ordering.swap]
      simp [SensorRange.mk.injEq]
      omega
    · rw [intCmp_eq_eq] at h2
      simp only [Ordering.swap]
      simp [SensorRange.mk.injEq]
      omega
    · rw [intCmp_eq_gt] at h2
      simp only [Ordering.swap]
      simp [SensorRange.mk.injEq]
      omega
  · rw [intCmp_eq_gt] at h
    simp [SensorRange.mk.injEq]
    omega

theorem SensorRange.cmp_lt_trans {a b c : SensorRange}
    (h1 : a.cmp b = .lt) (h2 : b.cmp c = .lt) : a.cmp c = .lt := by
  rw [SensorRange.cmp_lt_iff] at h1 h2 ⊢
  omega

theorem SensorRange.cmp_lt_first_le {a b : SensorRange} (h : a.cmp b = .lt) :
    a.first ≤ b.first := by
  rw [SensorRange.cmp_lt_iff] at h
  omega

/-! ### Sorted-set (BTreeSet model) lemmas -/

theorem coveredBy_cons (a : SensorRange) (l : List SensorRange) (x : Int) :
    coveredBy (a :: l) x ↔ (a.memX x ∨ coveredBy l x) := by
  simp [coveredBy]

theorem mem_btreeInsert (x r : SensorRange) (l : List SensorRange) :
    x ∈ btreeInsert r l ↔ (x = r ∨ x ∈ l) := by
  induction l with
  | nil => simp [btreeInsert]
  | cons a rest ih =>
    unfold btreeInsert
    rcases h : r.cmp a with _ | _ | _
    · simp [List.mem_cons]
    · rw [SensorRange.cmp_eq_iff] at h
      subst h
      simp [List.mem_cons]
    · simp [List.mem_cons, ih]
      tauto

theorem btreeInsert_head? (r : SensorRange) (l : List SensorRange) (x : SensorRange)
    (h : (btreeInsert r l).head? = some x) : x = r ∨ l.head? = some x := by
  cases l with
  | nil =>
    simp [btreeInsert] at h
    exact Or.inl h.symm
  | cons a rest =>
    rcases hc : r.cmp a with _ | _ | _ <;> simp [btreeInsert, hc] at h
    · exact Or.inl h.symm
    · exact Or.inr (by rw [h]; rfl)
    · exact Or.inr (by rw [h]; rfl)

theorem btreeInsert_sorted (r : SensorRange) (l : List SensorRange)
    (h : List.Chain' (fun a b => a.cmp b = .lt) l) :
    List.Chain' (fun a b => a.cmp b = .lt) (btreeInsert r l) := by
  induction l with
  | nil => simp [btreeInsert]
  | cons a rest ih =>
    rcases hc : r.cmp a with _ | _ | _
    · simp only [btreeInsert, hc]
      exact List.Chain'.cons hc h
    · simp only [btreeInsert, hc]
      exact h
    · simp only [btreeInsert, hc]
      rw [List.chain'_cons']
      refine ⟨?_, ih h.tail⟩
      intro y hy
      rcases btreeInsert_head? r rest y hy with rfl | hy2
      · rw [SensorRange.cmp_gt_char] at hc
        rw [SensorRange.cmp_lt_iff]
        omega
      · exact (List.chain'_cons'.mp h).1 y hy2

theorem btreeOf_loop_sorted (l : List SensorRange) :
    ∀ acc : List SensorRange, List.Chain' (fun a b => a.cmp b = .lt) acc →
    List.Chain' (fun a b => a.cmp b = .lt)
      (l.foldl (fun acc r => btreeInsert r acc) acc) := by
  induction l with
  | nil => intro acc h; exact h
  | cons r rest ih =>
    intro acc h
    exact ih (btreeInsert r acc) (btreeInsert_sorted r acc h)

theorem btreeOf_sorted (l : List SensorRange) :
    List.Chain' (fun a b => a.cmp b = .lt) (btreeOf l) :=
  btreeOf_loop_sorted l [] (by simp)

theorem mem_btreeOf_loop (x : SensorRange) (l : List SensorRange) :
    ∀ acc : List SensorRange,
    (x ∈ l.foldl (fun acc r => btreeInsert r acc) acc ↔ (x ∈ acc ∨ x ∈ l)) := by
  induction l with
  | nil => intro acc; simp
  | cons r rest ih =>
    intro acc
    rw [List.foldl_cons, ih (btreeInsert r acc), mem_btreeInsert]
    simp [List.mem_cons]
    tauto

theorem mem_btreeOf (x : SensorRange) (l : List SensorRange) :
    x ∈ btreeOf l ↔ x ∈ l := by
  rw [btreeOf, mem_btreeOf_loop]
  simp

/-! ### Sensor.range lemmas -/

theorem Sensor.range_some (s : Sensor) (row : Int) (r : SensorRange)
    (h : s.range row = some r) : r.first ≤ r.last := by
  unfold Sensor.range at h
  dsimp only at h
  split at h
  · exact Option.noConfusion h
  · split at h <;> split at h <;> split at h <;>
      first
        | exact Option.noConfusion h
        | (cases h; dsimp only; omega)

/-! ### Merge sweep lemmas -/

theorem joinAllGo_head (l : List SensorRange) :
    ∀ acc : SensorRange, ∃ t rest',
      SensorRange.joinAllGo acc l = ⟨acc.first, t⟩ :: rest' ∧ acc.last ≤ t := by
  induction l with
  | nil =>
    intro acc
    exact ⟨acc.last, [], rfl, le_refl _⟩
  | cons b rest ih =>
    intro acc
    by_cases hc : acc.last + 1 < b.first
    · exact ⟨acc.last, SensorRange.joinAllGo b rest,
        by simp [SensorRange.joinAllGo, hc], le_refl _⟩
    · obtain ⟨t, rest', heq, hle⟩ := ih ⟨acc.first, max acc.last b.last⟩
      refine ⟨t, rest', ?_, ?_⟩
      · simpa [SensorRange.joinAllGo, hc] using heq
      · exact le_trans (le_max_left _ _) hle

theorem joinAllGo_spec (l : List SensorRange) :
    ∀ acc : SensorRange,
    List.Chain' (fun a b => a.first ≤ b.first) (acc :: l) →
    acc.first ≤ acc.last →
    (∀ r ∈ l, r.first ≤ r.last) →
    (List.Chain' (fun a b => a.last + 2 ≤ b.first) (SensorRange.joinAllGo acc l)
     ∧ (∀ r ∈ SensorRange.joinAllGo acc l, r.first ≤ r.last)
     ∧ (∀ x : Int, coveredBy (SensorRange.joinAllGo acc l) x
          ↔ (acc.memX x ∨ coveredBy l x))) := by
  induction l with
  | nil =>
    intro acc _ hacc _
    refine ⟨by simp [SensorRange.joinAllGo], ?_, ?_⟩
    · intro r hr
      simp [SensorRange.joinAllGo] at hr
      rw [hr]
      exact hacc
    · intro x
      simp [SensorRange.joinAllGo, coveredBy]
  | cons b rest ih =>
    intro acc hchain hacc hne
    have hab : acc.first ≤ b.first := (List.chain'_cons'.mp hchain).1 b rfl
    have hchain2 : List.Chain' (fun a b => a.first ≤ b.first) (b :: rest) :=
      (List.chain'_cons'.mp hchain).2
    by_cases hc : acc.last + 1 < b.first
    · have hgo : SensorRange.joinAllGo acc (b :: rest)
          = acc :: SensorRange.joinAllGo b rest := by
        simp [SensorRange.joinAllGo, hc]
      obtain ⟨c1, c2, c3⟩ := ih b hchain2 (hne b (by simp))
        (fun r hr => hne r (by simp [hr]))
      obtain ⟨t, rest', hh, -⟩ := joinAllGo_head rest b
      refine ⟨?_, ?_, ?_⟩
      · rw [hgo, List.chain'_cons']
        refine ⟨?_, c1⟩
        intro y hy
        rw [hh] at hy
        simp at hy
        rw [← hy]
        dsimp only
        omega
      · rw [hgo]
        intro r hr
        rcases List.mem_cons.mp hr with rfl | hr2
        · exact hacc
        · exact c2 r hr2
      · intro x
        rw [hgo, coveredBy_cons, c3 x, coveredBy_cons]
    · have hbf : b.first ≤ acc.last + 1 := by omega
      have hgo : SensorRange.joinAllGo acc (b :: rest)
          = SensorRange.joinAllGo ⟨acc.first, max acc.last b.last⟩ rest := by
        simp [SensorRange.joinAllGo, hc]
      have hch' : List.Chain' (fun a b => a.first ≤ b.first)
          ((⟨acc.first, max acc.last b.last⟩ : SensorRange) :: rest) := by
        rw [List.chain'_cons']
        refine ⟨?_, hchain2.tail⟩
        intro y hy
        exact le_trans hab ((List.chain'_cons'.mp hchain2).1 y hy)
      obtain ⟨c1, c2, c3⟩ := ih ⟨acc.first, max acc.last b.last⟩ hch'
        (le_trans hacc (le_max_left _ _))
        (fun r hr => hne r (by simp [hr]))
      refine ⟨by rw [hgo]; exact c1, by rw [hgo]; exact c2, ?_⟩
      intro x
      rw [hgo, c3 x, coveredBy_cons]
      have hmx : (⟨acc.first, max acc.last b.last⟩ : SensorRange).memX x
          ↔ (acc.memX x ∨ b.memX x) := by
        unfold SensorRange.memX
        dsimp only
        rcases le_total acc.last b.last with hmE | hmE
        · rw [max_eq_right hmE]
          omega
        · rw [max_eq_left hmE]
          omega
      rw [hmx]
      tauto

theorem join_all_spec (l : List SensorRange)
    (hs : List.Chain' (fun a b => a.first ≤ b.first) l)
    (hne : ∀ r ∈ l, r.first ≤ r.last) :
    List.Chain' (fun a b => a.last + 2 ≤ b.first) (SensorRange.join_all l)
    ∧ (∀ r ∈ SensorRange.join_all l, r.first ≤ r.last)
    ∧ (∀ x : Int, coveredBy (SensorRange.join_all l) x ↔ coveredBy l x) := by
  cases l with
  | nil =>
    refine ⟨by simp [SensorRange.join_all], by simp [SensorRange.join_all], ?_⟩
    intro x
    simp [SensorRange.join_all]
  | cons a rest =>
    obtain ⟨c1, c2, c3⟩ := joinAllGo_spec rest a hs (hne a (by simp))
      (fun r hr => hne r (by simp [hr]))
    refine ⟨c1, c2, ?_⟩
    intro x
    have : SensorRange.join_all (a :: rest) = SensorRange.joinAllGo a rest := rfl
    rw [this, c3 x, coveredBy_cons]

theorem chain_gap_head (m : List SensorRange) :
    ∀ a : SensorRange,
    List.Chain' (fun p q => p.last + 2 ≤ q.first) (a :: m) →
    (∀ r ∈ m, r.first ≤ r.last) →
    ∀ b ∈ m, a.last + 2 ≤ b.first := by
  induction m with
  | nil => intro a _ _ b hb; simp at hb
  | cons b rest ih =>
    intro a h hne c hc
    have hab : a.last + 2 ≤ b.first := (List.chain'_cons'.mp h).1 b rfl
    rcases List.mem_cons.mp hc with rfl | hc2
    · exact hab
    · have hbc := ih b (List.Chain'.tail h) (fun r hr => hne r (by simp [hr])) c hc2
      have hbne : b.first ≤ b.last := hne b (by simp)
      omega

theorem chain_gap_pairwise (m : List SensorRange)
    (h : List.Chain' (fun p q => p.last + 2 ≤ q.first) m)
    (hne : ∀ r ∈ m, r.first ≤ r.last) :
    List.Pairwise (fun p q => p.last + 1 < q.first) m := by
  induction m with
  | nil => simp
  | cons a rest ih =>
    rw [List.pairwise_cons]
    refine ⟨fun b hb => ?_, ih (List.Chain'.tail h)
      (fun r hr => hne r (by simp [hr]))⟩
    have := chain_gap_head rest a h (fun r hr => hne r (by simp [hr])) b hb
    omega

theorem joinAllGo_of_gaps (l : List SensorRange) :
    ∀ acc : SensorRange,
    List.Chain' (fun p q => p.last + 2 ≤ q.first) (acc :: l) →
    SensorRange.joinAllGo acc l = acc :: l := by
  induction l with
  | nil => intro acc _; rfl
  | cons b rest ih =>
    intro acc h
    have hab : acc.last + 2 ≤ b.first := (List.chain'_cons'.mp h).1 b rfl
    have hc : acc.last + 1 < b.first := by omega
    simp only [SensorRange.joinAllGo, if_pos hc]
    rw [ih b (List.Chain'.tail h)]

/-! ### Per-row pipeline lemmas -/

theorem rowRanges_nonempty (sensors : List Sensor) (y : Int) :
    ∀ r ∈ rowRanges sensors y, r.first ≤ r.last := by
  intro r hr
  rw [rowRanges, List.mem_filterMap] at hr
  obtain ⟨s, -, hs⟩ := hr
  exact Sensor.range_some s y r hs

theorem mergedRows_spec (sensors : List Sensor) (y : Int) :
    List.Chain' (fun p q => p.last + 2 ≤ q.first) (mergedRows sensors y)
    ∧ (∀ r ∈ mergedRows sensors y, r.first ≤ r.last)
    ∧ (∀ x : Int, coveredBy (mergedRows sensors y) x
        ↔ coveredBy (rowRanges sensors y) x) := by
  have hsorted := btreeOf_sorted (rowRanges sensors y)
  have hs2 : List.Chain' (fun a b => a.first ≤ b.first)
      (sortedRowRanges sensors y) :=
    hsorted.imp (fun _ _ hab => SensorRange.cmp_lt_first_le hab)
  have hne : ∀ r ∈ sortedRowRanges sensors y, r.first ≤ r.last := by
    intro r hr
    exact rowRanges_nonempty sensors y r ((mem_btreeOf r _).mp hr)
  obtain ⟨c1, c2, c3⟩ := join_all_spec _ hs2 hne
  refine ⟨c1, c2, fun x => ?_⟩
  rw [mergedRows] at *
  rw [c3 x]
  constructor
  · rintro ⟨r, hr, hx⟩
    exact ⟨r, (mem_btreeOf r _).mp hr, hx⟩
  · rintro ⟨r, hr, hx⟩
    exact ⟨r, (mem_btreeOf r _).mpr hr, hx⟩

/-! ### Part-A counting lemmas -/

theorem slot_card_le (bs : Finset (Int × Int)) (row : Int) (r : SensorRange) :
    (bs.filter (fun b => b.2 = row ∧ r.memX b.1)).card ≤ r.len := by
  have hcard : (bs.filter (fun b => b.2 = row ∧ r.memX b.1)).card
      ≤ (Finset.Icc r.first r.last).card := by
    apply Finset.card_le_card_of_injOn (fun b => b.1)
    · intro b hb
      rw [Finset.mem_filter] at hb
      rw [Finset.mem_Icc]
      exact hb.2.2
    · intro b1 h1 b2 h2 heq
      simp only [Finset.coe_filter, Set.mem_setOf_eq] at h1 h2
      have : b1.2 = b2.2 := by rw [h1.2.1, h2.2.1]
      exact Prod.ext heq this
  rw [Int.card_Icc] at hcard
  exact hcard

theorem card_filter_sum (bs : Finset (Int × Int)) (row : Int)
    (m : List SensorRange)
    (hp : List.Pairwise (fun p q => p.last + 1 < q.first) m) :
    ((m.map (fun r => (bs.filter (fun b => b.2 = row ∧ r.memX b.1)).card)).sum
      = (bs.filter (fun b => b.2 = row ∧ ∃ r ∈ m, r.memX b.1)).card) := by
  induction m with
  | nil => simp
  | cons a m' ih =>
    rw [List.map_cons, List.sum_cons, ih (List.Pairwise.of_cons hp)]
    have hdis : Disjoint (bs.filter (fun b => b.2 = row ∧ a.memX b.1))
        (bs.filter (fun b => b.2 = row ∧ ∃ r ∈ m', r.memX b.1)) := by
      rw [Finset.disjoint_left]
      intro b hb1 hb2
      rw [Finset.mem_filter] at hb1 hb2
      obtain ⟨-, -, ha⟩ := hb1
      obtain ⟨-, -, r, hr, hrx⟩ := hb2
      have := (List.pairwise_cons.mp hp).1 r hr
      unfold SensorRange.memX at ha hrx
      omega
    rw [← Finset.card_union_of_disjoint hdis, ← Finset.filter_or]
    apply congrArg
    apply Finset.filter_congr
    intro b _
    simp only [List.mem_cons]
    constructor
    · rintro (⟨h1, h2⟩ | ⟨h1, r, hr, h2⟩)
      · exact ⟨h1, a, Or.inl rfl, h2⟩
      · exact ⟨h1, r, Or.inr hr, h2⟩
    · rintro ⟨h1, r, hr, h2⟩
      rcases hr with rfl | hr2
      · exact Or.inl ⟨h1, h2⟩
      · exact Or.inr ⟨h1, r, hr2, h2⟩

theorem sum_map_sub (f g : SensorRange → Nat) (m : List SensorRange)
    (h : ∀ r ∈ m, g r ≤ f r) :
    ((m.map (fun r => f r - g r)).sum = (m.map f).sum - (m.map g).sum
     ∧ (m.map g).sum ≤ (m.map f).sum) := by
  induction m with
  | nil => simp
  | cons a m' ih =>
    obtain ⟨ih1, ih2⟩ := ih (fun r hr => h r (by simp [hr]))
    have ha := h a (by simp)
    simp only [List.map_cons, List.sum_cons]
    omega

/-! ### Claim theorems -/

/-- C1: the claim states that `Sensor::range` shrinks the candidate
interval at whichever end equals the beacon's x-coordinate, and in
particular excludes the last endpoint when the beacon's x equals it.  The
code instead compares the beacon's y-coordinate with `last`.  This theorem
evaluates the transcribed code at the failing inputs: for the sensor at
(0,0) with beacon (3,0) queried at row 0, the beacon's x (3) equals the
interval's last endpoint, yet the result keeps column 3 (the claim demands
some ⟨-3, 2⟩); for the sensor at (3,5) with beacon (1,5) queried at row 5,
the beacon's x (1) equals neither endpoint, yet the result wrongly drops
the covered column 5 because the beacon's y (5) equals `last` (the claim
demands some ⟨2, 5⟩). -/
theorem c1_trim_eval :
    Sensor.range ⟨(0, 0), (3, 0)⟩ 0 = some ⟨-3, 3⟩
    ∧ Sensor.range ⟨(3, 5), (1, 5)⟩ 5 = some ⟨2, 4⟩ := by
  exact ⟨rfl, rfl⟩

/-- C2 (counterexample): for the two sensors of `gapPairSensors`, row 0 of
the bounded search with limit 20 qualifies (two clamped merged intervals
remain), but the consecutive remaining intervals [0,3] and [7,11] do not
differ by exactly one missing column: columns 4, 5 and 6 are all covered
by no sensor, so the row does not contain a one-cell gap. -/
theorem c2_counterexample :
    rowScan gapPairSensors 20 0 = some (0, [⟨0, 3⟩, ⟨7, 11⟩])
    ∧ (⟨7, 11⟩ : SensorRange).first ≠ (⟨0, 3⟩ : SensorRange).last + 2
    ∧ ¬ coveredBy (rowRanges gapPairSensors 0) 4
    ∧ ¬ coveredBy (rowRanges gapPairSensors 0) 5
    ∧ ¬ coveredBy (rowRanges gapPairSensors 0) 6 := by
  refine ⟨by decide, by decide, by decide, by decide, by decide⟩

/-- C2 (amended): for every candidate row of the bounded search, if more
than one clamped merged interval remains then consecutive merged intervals
differ by at least one missing column (not necessarily exactly one); the
first clamped interval is the clamp of the first merged interval, so the
gap x-coordinate the program reports is that interval's last + 1; the
column one past the first merged interval's last endpoint is covered by no
sensor's row interval, and whenever that endpoint is at most `limit` it is
exactly the reported column. -/
theorem c2_gap_structure (sensors : List Sensor) (limit y : Int)
    (h : 1 < (clampedRows sensors limit y).length) :
    List.Chain' (fun p q => p.last + 2 ≤ q.first) (mergedRows sensors y)
    ∧ ∀ m0 ms, mergedRows sensors y = m0 :: ms →
        (clampedRows sensors limit y
            = m0.clamp 0 limit :: ms.map (fun r => r.clamp 0 limit)
         ∧ ¬ coveredBy (rowRanges sensors y) (m0.last + 1)
         ∧ (m0.last ≤ limit → (m0.clamp 0 limit).last + 1 = m0.last + 1)) := by
  obtain ⟨c1, c2, c3⟩ := mergedRows_spec sensors y
  refine ⟨c1, ?_⟩
  intro m0 ms hm
  refine ⟨?_, ?_, ?_⟩
  · rw [clampedRows, hm, List.map_cons]
  · rw [← c3]
    rintro ⟨r, hr, hx⟩
    rw [hm] at hr
    rcases List.mem_cons.mp hr with rfl | hr2
    · unfold SensorRange.memX at hx
      omega
    · have hgap := chain_gap_head ms m0 (by rw [hm] at c1; exact c1)
        (fun q hq => c2 q (by rw [hm]; exact List.mem_cons_of_mem _ hq)) r hr2
      unfold SensorRange.memX at hx
      omega
  · intro hlim
    unfold SensorRange.clamp
    dsimp only
    rw [min_eq_left hlim]

/-- C2 witness: instantiating the amended theorem on `gapPairSensors` at
row 0 with limit 20, whose first merged interval is [-1, 3]. -/
theorem c2_gap_structure_witness :
    ¬ coveredBy (rowRanges gapPairSensors 0) 4 := by
  exact ((c2_gap_structure gapPairSensors 20 0 (by decide)).2
    ⟨-1, 3⟩ [⟨7, 11⟩] (by decide)).2.1

/-- C3 (counterexample): for the single-sensor input `noGapSensors` no row
of the bounded search over limit 20 qualifies, yet the program produces the
part-B value 0 — the initialized default — rather than any distinct
no-gap-found error (the transcribed result value is a total function with
no error outcome at all). -/
theorem c3_counterexample :
    findGap noGapSensors 20 = none ∧ frequency noGapSensors 20 = 0 := by
  exact ⟨by decide, by decide⟩

/-- C3 (amended): when the bounded search completes without any row
yielding more than one merged clamped interval, the program silently keeps
the default part-B value 0 derived from the initialisation; no error
condition is reported. -/
theorem c3_silent_default (sensors : List Sensor) (limit : Int)
    (h : findGap sensors limit = none) : frequency sensors limit = 0 := by
  unfold frequency
  rw [h]

/-- C3 witness: the amended theorem applied to `noGapSensors`. -/
theorem c3_silent_default_witness : frequency noGapSensors 20 = 0 :=
  c3_silent_default noGapSensors 20 (by decide)

/-- C4: for non-empty intervals with `a.first ≤ b.first`, `join` merges
them into [min of firsts, max of lasts] exactly when `a.last + 1 ≥
b.first`, and returns them as two separate intervals exactly when
`b.first` exceeds `a.last + 1`. -/
theorem c4_join_rule (a b : SensorRange)
    (h1 : a.first ≤ a.last) (h2 : b.first ≤ b.last) (h3 : a.first ≤ b.first) :
    (a.last + 1 ≥ b.first →
      a.join b = (⟨min a.first b.first, max a.last b.last⟩, none))
    ∧ (a.last + 1 < b.first → a.join b = (a, some b)) := by
  constructor
  · intro hge
    unfold SensorRange.join
    rw [if_neg (by omega), min_eq_left h3]
  · intro hlt
    unfold SensorRange.join
    rw [if_pos hlt]

/-- C4 witness: the merge case at the concrete overlapping pair
[0,5], [3,8]. -/
theorem c4_join_rule_witness :
    SensorRange.join ⟨0, 5⟩ ⟨3, 8⟩ = (⟨min 0 3, max 5 8⟩, none) :=
  (c4_join_rule ⟨0, 5⟩ ⟨3, 8⟩ (by decide) (by decide) (by decide)).1 (by decide)

/-- C5: for every sequence of non-empty intervals sorted by the total
order (`cmp` never answers gt between neighbours), the merge sweep outputs
a sequence that is ascending with at least one missing integer between
consecutive outputs, consists of non-empty intervals, is pairwise disjoint,
and covers exactly the union of the input intervals. -/
theorem c5_merge_invariants (l : List SensorRange)
    (hs : List.Chain' (fun a b => a.cmp b ≠ .gt) l)
    (hne : ∀ r ∈ l, r.first ≤ r.last) :
    List.Chain' (fun p q => p.last + 2 ≤ q.first) (SensorRange.join_all l)
    ∧ (∀ r ∈ SensorRange.join_all l, r.first ≤ r.last)
    ∧ List.Pairwise (fun p q => p.last + 1 < q.first) (SensorRange.join_all l)
    ∧ (∀ x : Int, coveredBy (SensorRange.join_all l) x ↔ coveredBy l x) := by
  have hs2 : List.Chain' (fun a b => a.first ≤ b.first) l := by
    refine hs.imp (fun a b hab => ?_)
    by_contra hlt
    push_neg at hlt
    exact hab ((SensorRange.cmp_gt_char a b).mpr (Or.inl hlt))
  obtain ⟨c1, c2, c3⟩ := join_all_spec l hs2 hne
  exact ⟨c1, c2, chain_gap_pairwise _ c1 c2, c3⟩

/-- C5 witness: union preservation at column 5 for a concrete sorted
input whose first two intervals merge. -/
theorem c5_merge_invariants_witness :
    coveredBy (SensorRange.join_all [⟨0, 3⟩, ⟨2, 9⟩, ⟨11, 12⟩]) 5
    ↔ coveredBy [⟨0, 3⟩, ⟨2, 9⟩, ⟨11, 12⟩] 5 :=
  (c5_merge_invariants [⟨0, 3⟩, ⟨2, 9⟩, ⟨11, 12⟩]
    (by rw [List.chain'_cons, List.chain'_pair]; exact ⟨by decide, by decide⟩)
    (by decide)).2.2.2 5

/-- C6: for every row and sensor set, the part-A coverage count equals
the sum of len() over the merged row intervals minus one for each distinct
beacon coordinate on that row whose x lies inside some merged interval; a
beacon shared by several sensors is subtracted only once because the
beacon set is deduplicated by coordinate, and the subtracted count never
exceeds the summed length. -/
theorem c6_count_formula (sensors : List Sensor) (row : Int) :
    count_slots sensors row
      = ((mergedRows sensors row).map SensorRange.len).sum
        - ((beaconSet sensors).filter
            (fun b => b.2 = row ∧ ∃ r ∈ mergedRows sensors row, r.memX b.1)).card
    ∧ ((beaconSet sensors).filter
        (fun b => b.2 = row ∧ ∃ r ∈ mergedRows sensors row, r.memX b.1)).card
      ≤ ((mergedRows sensors row).map SensorRange.len).sum := by
  obtain ⟨hchain, hne, -⟩ := mergedRows_spec sensors row
  have hpair := chain_gap_pairwise _ hchain hne
  have hcard := card_filter_sum (beaconSet sensors) row (mergedRows sensors row) hpair
  have hle : ∀ r ∈ mergedRows sensors row,
      (fun r => ((beaconSet sensors).filter
        (fun b => b.2 = row ∧ r.memX b.1)).card) r ≤ SensorRange.len r :=
    fun r _ => slot_card_le (beaconSet sensors) row r
  obtain ⟨e1, e2⟩ := sum_map_sub SensorRange.len
    (fun r => ((beaconSet sensors).filter
      (fun b => b.2 = row ∧ r.memX b.1)).card)
    (mergedRows sensors row) hle
  constructor
  · rw [← hcard]
    have hmap : (mergedRows sensors row).map (slotCount (beaconSet sensors) row)
        = (mergedRows sensors row).map (fun r => SensorRange.len r
            - ((beaconSet sensors).filter
                (fun b => b.2 = row ∧ r.memX b.1)).card) := rfl
    rw [count_slots, hmap, e1]
  · rw [← hcard]
    exact e2

/-- C7 (counterexample): on the canonical sample the part-B value the
program computes over limit 20 is 56000011 (the gap (14, 11) under x *
4000000 + y), not the claimed 56000014. -/
theorem c7_counterexample :
    frequency sampleSensors 20 = 56000011
    ∧ (56000011 : Int) ≠ 56000014 := by
  exact ⟨by decide, by decide⟩

/-- C7 (amended): on the canonical fourteen-sensor sample input, the
part-A coverage count at row 10 is 26, and the part-B gap search over
[0,20]×[0,20] finds the gap at row 11 with clamped intervals [0,13] and
[15,20] — the gap column 14 — yielding the part-B output value
14 * 4000000 + 11 = 56000011. -/
theorem c7_sample_values :
    count_slots sampleSensors 10 = 26
    ∧ findGap sampleSensors 20 = some (11, [⟨0, 13⟩, ⟨15, 20⟩])
    ∧ frequency sampleSensors 20 = 56000011 := by
  exact ⟨by decide, by decide, by decide⟩

/-- C8: the comparator is a total order: a sorts before b exactly when
a.first < b.first or firsts tie and a extends further (larger last sorts
first); two intervals compare equal exactly when they are structurally
equal; gt is the mirror of lt; and lt is transitive. -/
theorem c8_total_order (a b c : SensorRange) :
    (a.cmp b = .lt ↔ (a.first < b.first ∨ (a.first = b.first ∧ b.last < a.last)))
    ∧ (a.cmp b = .eq ↔ a = b)
    ∧ (a.cmp b = .gt ↔ b.cmp a = .lt)
    ∧ (a.cmp b = .lt → b.cmp c = .lt → a.cmp c = .lt) := by
  refine ⟨SensorRange.cmp_lt_iff a b, SensorRange.cmp_eq_iff a b, ?_,
    fun h1 h2 => SensorRange.cmp_lt_trans h1 h2⟩
  rw [SensorRange.cmp_gt_char, SensorRange.cmp_lt_iff]

/-- C8 witness: [0,9] sorts before [1,5] since 0 < 1. -/
theorem c8_total_order_witness :
    SensorRange.cmp ⟨0, 9⟩ ⟨1, 5⟩ = .lt :=
  ((c8_total_order ⟨0, 9⟩ ⟨1, 5⟩ ⟨2, 2⟩).1).mpr (Or.inl (by decide))

/-- C9: applying the merge sweep to an already-merged sequence — sorted
ascending, non-empty, with at least one missing integer between
consecutive intervals — returns the sequence unchanged. -/
theorem c9_idempotent (l : List SensorRange)
    (hgap : List.Chain' (fun p q => p.last + 2 ≤ q.first) l)
    (hne : ∀ r ∈ l, r.first ≤ r.last) :
    SensorRange.join_all l = l := by
  cases l with
  | nil => rfl
  | cons a rest => exact joinAllGo_of_gaps rest a hgap

/-- C9 witness: the already-merged pair [0,3], [5,9] is left unchanged. -/
theorem c9_idempotent_witness :
    SensorRange.join_all [⟨0, 3⟩, ⟨5, 9⟩] = [⟨0, 3⟩, ⟨5, 9⟩] :=
  c9_idempotent [⟨0, 3⟩, ⟨5, 9⟩] (by rw [List.chain'_pair]; decide) (by decide)

/-- C10: clamp returns exactly [max(first, lo), min(last, hi)], and when
the interval is disjoint from [lo, hi] the returned value has first >
last: clamp does not re-establish the interval invariant, the empty result
is still a constructed value. -/
theorem c10_clamp (r : SensorRange) (lo hi : Int)
    (h1 : r.first ≤ r.last) (h2 : lo ≤ hi) :
    r.clamp lo hi = ⟨max r.first lo, min r.last hi⟩
    ∧ ((r.last < lo ∨ hi < r.first) →
        (r.clamp lo hi).last < (r.clamp lo hi).first) := by
  refine ⟨rfl, ?_⟩
  intro hdis
  unfold SensorRange.clamp
  dsimp only
  rcases hdis with hd | hd
  · exact lt_of_le_of_lt (min_le_left _ _) (lt_of_lt_of_le hd (le_max_right _ _))
  · exact lt_of_le_of_lt (min_le_right _ _) (lt_of_lt_of_le hd (le_max_left _ _))

/-- C10 witness: clamping [5,9] to [0,3] produces the inverted value
[5,3]. -/
theorem c10_clamp_witness :
    (SensorRange.clamp ⟨5, 9⟩ 0 3).last < (SensorRange.clamp ⟨5, 9⟩ 0 3).first :=
  (c10_clamp ⟨5, 9⟩ 0 3 (by decide) (by decide)).2 (Or.inr (by decide))
